import Mathlib

/-!
# Verification of `bclustering/metric.py`

Shallow embedding of the covariance algebra, the `DataWithErrors` container
and the pairwise `chi2_metric` of `bclustering/metric.py`, over exact real
arithmetic.  Numpy arrays of fixed shape `n x b` (resp. `n x b x b`) are
modelled as functions `Fin n → Fin b → ℝ` (resp. `Fin n → Fin b → Fin b → ℝ`);
per-histogram correlation matrices are `Matrix (Fin b) (Fin b) ℝ` so that
matrix inversion (`np.linalg.inv`) is available.  The rank-polymorphic numpy
helpers (`cov2err`, `cov2corr`, `corr2cov` dispatch on `len(shape)`) are split
into an explicit rank-2 and rank-3 version each.

Division in Lean is total with `x / 0 = 0`, while numpy propagates `NaN`/`inf`;
theorems about entries whose denominator can vanish therefore state the
vanishing of the denominator explicitly where it matters.

Two auxiliary models complement the typed embedding:
* `NDArr` models untyped numpy arrays with shapes and broadcasting, used for
  the claims about shape checking (the source performs none) and about the
  in-place operators `+=` and `/=`;
* `DWEHeap` models array object identity (addresses into a heap), used for
  the claims about aliasing of returned arrays.
-/

noncomputable section

namespace BClustering

/-- Source `cov2err`, rank-2 branch (`len(cov.shape) == 2`):
`np.sqrt(cov.diagonal())`. -/
def cov2err {b : ℕ} (cov : Matrix (Fin b) (Fin b) ℝ) : Fin b → ℝ :=
  fun i => Real.sqrt (cov i i)

/-- Source `cov2err`, rank-3 branch (`len(cov.shape) == 3`):
`np.sqrt(cov.diagonal(axis1=1, axis2=2))`. -/
def cov2err3 {n b : ℕ} (cov : Fin n → Fin b → Fin b → ℝ) : Fin n → Fin b → ℝ :=
  fun k i => Real.sqrt (cov k i i)

/-- Source `cov2corr`, rank-2 branch: `cov / np.outer(err, err)`. -/
def cov2corr {b : ℕ} (cov : Matrix (Fin b) (Fin b) ℝ) : Matrix (Fin b) (Fin b) ℝ :=
  Matrix.of fun i j => cov i j / (cov2err cov i * cov2err cov j)

/-- Source `cov2corr`, rank-3 branch: `cov / np.einsum("ki,kj->kij", err, err)`. -/
def cov2corr3 {n b : ℕ} (cov : Fin n → Fin b → Fin b → ℝ) :
    Fin n → Matrix (Fin b) (Fin b) ℝ :=
  fun k => Matrix.of fun i j => cov k i j / (cov2err3 cov k i * cov2err3 cov k j)

/-- Source `corr2cov`, rank-2 branch: `np.einsum("ij,i,j->ij", corr, err, err)`. -/
def corr2cov {b : ℕ} (corr : Matrix (Fin b) (Fin b) ℝ) (err : Fin b → ℝ) :
    Matrix (Fin b) (Fin b) ℝ :=
  Matrix.of fun i j => corr i j * err i * err j

/-- Source `corr2cov`, rank-3 branch: `np.einsum("kij,ki,kj->kij", corr, err, err)`. -/
def corr2cov3 {n b : ℕ} (corr : Fin n → Fin b → Fin b → ℝ) (err : Fin n → Fin b → ℝ) :
    Fin n → Fin b → Fin b → ℝ :=
  fun k i j => corr k i j * err k i * err k j

/-- Source `rel2abs_cov`: `np.einsum("ij,ki,kj->kij", cov, data, data)` — one
shared `b x b` relative covariance broadcast against per-histogram data. -/
def rel2abs_cov {n b : ℕ} (cov : Matrix (Fin b) (Fin b) ℝ)
    (data : Fin n → Fin b → ℝ) : Fin n → Fin b → Fin b → ℝ :=
  fun k i j => cov i j * data k i * data k j

/-- Source `abs2rel_cov`: the body is `raise NotImplementedError`; modelled as
the failing computation `none` (no input ever produces a value). -/
def abs2rel_cov {n b : ℕ} (cov : Fin n → Fin b → Fin b → ℝ)
    (data : Fin n → Fin b → ℝ) : Option (Fin n → Fin b → Fin b → ℝ) :=
  none

/-- Source class `DataWithErrors`: `__init__` stores `self._data = data` and
`self._cov = np.zeros((n, nbins, nbins))`.  The mutable object state is the
pair of both arrays (the shape attributes `n`, `nbins` are the type indices). -/
@[ext]
structure DataWithErrors (n b : ℕ) where
  _data : Fin n → Fin b → ℝ
  _cov : Fin n → Fin b → Fin b → ℝ

/-- Source `DataWithErrors.__init__(data)`: `self._cov` starts as the zero
tensor. -/
def DataWithErrors.init {n b : ℕ} (data : Fin n → Fin b → ℝ) : DataWithErrors n b :=
  ⟨data, fun _ _ _ => 0⟩

/-- Source `norms()`: `np.sum(self._data, axis=1)`. -/
def DataWithErrors.norms {n b : ℕ} (dwe : DataWithErrors n b) : Fin n → ℝ :=
  fun k => ∑ i, dwe._data k i

/-- Source `err(relative)`: `cov2err(self._cov)`, divided per histogram by
`norms()` (via `np.tile(self.norms(), (self.nbins, 1)).T`) when `relative`. -/
def DataWithErrors.err {n b : ℕ} (dwe : DataWithErrors n b) (relative : Bool := false) :
    Fin n → Fin b → ℝ :=
  if relative then fun k i => cov2err3 dwe._cov k i / dwe.norms k
  else cov2err3 dwe._cov

/-- Source `corr()`: `cov2corr(self._cov)` (rank-3 branch). -/
def DataWithErrors.corr {n b : ℕ} (dwe : DataWithErrors n b) :
    Fin n → Matrix (Fin b) (Fin b) ℝ :=
  cov2corr3 dwe._cov

/-- Source `cov(relative)`: `return self._cov` when not relative, else
`abs2rel_cov(self._cov, self.data)` which raises `NotImplementedError`
(modelled by `none`). -/
def DataWithErrors.cov {n b : ℕ} (dwe : DataWithErrors n b) (relative : Bool := false) :
    Option (Fin n → Fin b → Fin b → ℝ) :=
  if relative = false then some dwe._cov
  else abs2rel_cov dwe._cov dwe._data

/-- Source `data(normalize=False, decorrelate=True)`: the decorrelate branch of
the `data` method; `inverses = np.linalg.inv(self.corr())` and
`ret = np.einsum("kij,kj->ki", inverses, ret)` on the copied data.  Matrix
inversion in Lean is total (junk on singular input); theorems about this
definition carry the invertibility of each correlation matrix as a hypothesis,
mirroring numpy raising `LinAlgError` on singular input. -/
def DataWithErrors.dataDecorr {n b : ℕ} (dwe : DataWithErrors n b) :
    Fin n → Fin b → ℝ :=
  fun k i => ∑ j, (dwe.corr k)⁻¹ i j * dwe._data k j

/-- Source `add_err_cov(cov)`: `self._cov += cov` (well-shaped case; the
untyped broadcasting behaviour is modelled separately on `NDArr`). -/
def DataWithErrors.add_err_cov {n b : ℕ} (dwe : DataWithErrors n b)
    (cov : Fin n → Fin b → Fin b → ℝ) : DataWithErrors n b :=
  { dwe with _cov := fun k i j => dwe._cov k i j + cov k i j }

/-- Source `add_err_corr(err, corr)`: `self.add_err_cov(corr2cov(corr, err))`
(rank-3 branch of `corr2cov`). -/
def DataWithErrors.add_err_corr {n b : ℕ} (dwe : DataWithErrors n b)
    (err : Fin n → Fin b → ℝ) (corr : Fin n → Fin b → Fin b → ℝ) : DataWithErrors n b :=
  dwe.add_err_cov (corr2cov3 corr err)

/-- Source `add_err_uncorr(err)`:
`corr = np.tile(np.identity(self.nbins), (self.n, 1, 1))` then
`self.add_err_corr(err, corr)`. -/
def DataWithErrors.add_err_uncorr {n b : ℕ} (dwe : DataWithErrors n b)
    (err : Fin n → Fin b → ℝ) : DataWithErrors n b :=
  dwe.add_err_corr err (fun _ i j => if i = j then 1 else 0)

/-- Source `chi2_metric(dwe)`: the einsum/transpose pipeline of the source,
with `nom1[k,l,i] = n[k]*d[l,i]`, `nom2 = transpose(nom1, (1,0,2))`,
`den1[k,l,i] = n[k]*e[l,i]`, `den2 = transpose(den1, (1,0,2))`,
`chi2[k,l] = sum_i (nom1-nom2)^2[k,l,i] / (den1^2+den2^2)[k,l,i]` and the
result `chi2 / dwe.nbins`. -/
def chi2_metric {n b : ℕ} (dwe : DataWithErrors n b) : Fin n → Fin n → ℝ :=
  let nv := dwe.norms
  let d := dwe.dataDecorr
  let e := dwe.err false
  let nom1 : Fin n → Fin n → Fin b → ℝ := fun k l i => nv k * d l i
  let nom2 : Fin n → Fin n → Fin b → ℝ := fun k l i => nom1 l k i
  let nominator : Fin n → Fin n → Fin b → ℝ := fun k l i => (nom1 k l i - nom2 k l i) ^ 2
  let den1 : Fin n → Fin n → Fin b → ℝ := fun k l i => nv k * e l i
  let den2 : Fin n → Fin n → Fin b → ℝ := fun k l i => den1 l k i
  let denominator : Fin n → Fin n → Fin b → ℝ :=
    fun k l i => den1 k l i ^ 2 + den2 k l i ^ 2
  let summand : Fin n → Fin n → Fin b → ℝ :=
    fun k l i => nominator k l i / denominator k l i
  let chi2 : Fin n → Fin n → ℝ := fun k l => ∑ i, summand k l i
  fun k l => chi2 k l / (b : ℝ)

/-- Source `condense_distance_matrix` and `np.triu_indices(n, k=1)`: the pairs
of indices of the strictly upper triangle (offset `k`), rows first, each row in
increasing column order — exactly numpy's row-major enumeration. -/
def triu_indices (nn k : ℕ) : List (ℕ × ℕ) :=
  (List.range nn).flatMap fun i =>
    ((List.range nn).filter fun j => i + k ≤ j).map fun j => (i, j)

/-- Source `condense_distance_matrix(matrix)`:
`matrix[np.triu_indices(len(matrix), k=1)]` — fancy indexing with the
`triu_indices` pair arrays yields the list of entries at those pairs. -/
def condense_distance_matrix (nn : ℕ) (M : ℕ → ℕ → ℝ) : List ℝ :=
  (triu_indices nn 1).map fun p => M p.1 p.2

/-! ## Untyped numpy arrays with broadcasting

The source performs no explicit shape validation; what happens on a shape
mismatch is decided by numpy's broadcasting rules for the in-place operators
`self._cov += cov` and `ret /= self.norms()`.  `NDArr` models an untyped numpy
array: a shape and a value on (row-major) multi-indices. -/

/-- An untyped numpy array: a shape and its entries, indexed by multi-indices
(most significant axis first, as written in numpy). -/
structure NDArr where
  shape : List ℕ
  val : List ℕ → ℝ

/-- Numpy broadcasting of a single dimension pair: equal, or one of them 1. -/
def bcastDim (a b : ℕ) : Option ℕ :=
  if a = b then some a else if a = 1 then some b else if b = 1 then some a else none

/-- Numpy broadcasting of two shapes given with the least significant axis
first (reversed); a missing leading axis broadcasts. -/
def bcastRev : List ℕ → List ℕ → Option (List ℕ)
  | [], t => some t
  | s, [] => some s
  | a :: s, b :: t =>
    match bcastDim a b, bcastRev s t with
    | some d, some r => some (d :: r)
    | _, _ => none

/-- Numpy broadcasting of two shapes (most significant axis first): align the
trailing axes. -/
def bcastShape (s t : List ℕ) : Option (List ℕ) :=
  (bcastRev s.reverse t.reverse).map List.reverse

/-- Index into a broadcast operand: drop the leading axes the operand does not
have, and read index 0 on every axis of extent 1. -/
def bIndex (bshape ix : List ℕ) : List ℕ :=
  (bshape.zip (ix.drop (ix.length - bshape.length))).map fun p =>
    if p.1 = 1 then 0 else p.2

/-- A numpy in-place binary operator `A op= B`: the operands must broadcast to
exactly the shape of `A` (otherwise numpy raises a `ValueError`, before any
element of `A` is written — modelled by `none`). -/
def ndOpInPlace (op : ℝ → ℝ → ℝ) (A B : NDArr) : Option NDArr :=
  if bcastShape A.shape B.shape = some A.shape then
    some ⟨A.shape, fun ix => op (A.val ix) (B.val (bIndex B.shape ix))⟩
  else none

/-- Numpy `A += B`. -/
def ndAddInPlace : NDArr → NDArr → Option NDArr := ndOpInPlace (· + ·)

/-- Numpy `A /= B`. -/
def ndDivInPlace : NDArr → NDArr → Option NDArr := ndOpInPlace (· / ·)

/-- Source `add_err_cov(cov)` on untyped arrays: `self._cov += cov`, with
numpy's broadcasting semantics and no shape check of its own. -/
def add_err_cov_nd (selfCov cov : NDArr) : Option NDArr :=
  ndAddInPlace selfCov cov

/-- Source `norms()` on an untyped rank-2 array: `np.sum(self._data, axis=1)`,
a rank-1 array of the row sums. -/
def ndNorms (A : NDArr) : NDArr :=
  ⟨A.shape.take 1, fun ix =>
    ∑ i ∈ Finset.range (A.shape.getD 1 0), A.val (ix.take 1 ++ [i])⟩

/-- Source `data(normalize, decorrelate=False)` on untyped arrays:
`ret = np.array(self._data)` (a fresh copy), then `ret /= self.norms()` when
`normalize` — an in-place numpy division with broadcasting. -/
def data_method_nd (dataA : NDArr) (normalize : Bool) : Option NDArr :=
  if normalize then ndDivInPlace dataA (ndNorms dataA) else some dataA

/-! ## Array object identity

`cov(relative=False)` executes `return self._cov` — it hands the caller the
stored array object itself, while `data()` executes `ret = np.array(self._data)`
and returns a fresh copy.  To express aliasing, array objects live in a heap
addressed by naturals; the dataset holds the addresses of its `_cov` and
`_data` arrays, and a caller mutation writes through an address. -/

/-- Heap model of a `DataWithErrors` object: the values of all array objects
(one heap per shape), the addresses of the stored `_cov` and `_data` arrays,
and the next fresh address the allocator will use for a data-shaped array. -/
structure DWEHeap (n b : ℕ) where
  covHeap : ℕ → Fin n → Fin b → Fin b → ℝ
  dataHeap : ℕ → Fin n → Fin b → ℝ
  covAddr : ℕ
  dataAddr : ℕ
  freshAddr : ℕ

/-- Source `cov(relative=False)`: `return self._cov` — the stored address
itself is returned, no allocation and no copy. -/
def DWEHeap.covMethodAddr {n b : ℕ} (st : DWEHeap n b) : ℕ :=
  st.covAddr

/-- Source `data()` (both flags false): `ret = np.array(self._data)` allocates
a fresh array holding a copy of the stored data and returns its address. -/
def DWEHeap.dataMethodAddr {n b : ℕ} (st : DWEHeap n b) : ℕ × DWEHeap n b :=
  (st.freshAddr,
    { st with
      dataHeap := Function.update st.dataHeap st.freshAddr (st.dataHeap st.dataAddr)
      freshAddr := st.freshAddr + 1 })

/-- A caller mutating a covariance-shaped array object at address `a`. -/
def DWEHeap.writeCov {n b : ℕ} (st : DWEHeap n b) (a : ℕ)
    (v : Fin n → Fin b → Fin b → ℝ) : DWEHeap n b :=
  { st with covHeap := Function.update st.covHeap a v }

/-- A caller mutating a data-shaped array object at address `a`. -/
def DWEHeap.writeData {n b : ℕ} (st : DWEHeap n b) (a : ℕ)
    (v : Fin n → Fin b → ℝ) : DWEHeap n b :=
  { st with dataHeap := Function.update st.dataHeap a v }

/-- The value of the dataset's stored `self._cov` array. -/
def DWEHeap.storedCov {n b : ℕ} (st : DWEHeap n b) : Fin n → Fin b → Fin b → ℝ :=
  st.covHeap st.covAddr

/-- The value of the dataset's stored `self._data` array. -/
def DWEHeap.storedData {n b : ℕ} (st : DWEHeap n b) : Fin n → Fin b → ℝ :=
  st.dataHeap st.dataAddr

/-! ## Concrete instances used by witnesses and counterexamples -/

/-- A concrete dataset with one histogram of one bin, data value 2, accumulated
covariance 1 (so its correlation matrix is the invertible 1 x 1 identity). -/
def dwe0 : DataWithErrors 1 1 :=
  ⟨fun _ _ => 2, fun _ _ _ => 1⟩

/-- The correlation matrix of `dwe0` is invertible (its determinant is 1). -/
lemma dwe0_corr_isUnit : ∀ k : Fin 1, IsUnit ((dwe0.corr k).det) := by
  intro k
  have h : (dwe0.corr k).det = 1 := by
    rw [Matrix.det_fin_one]
    simp [dwe0, DataWithErrors.corr, cov2corr3, cov2err3, Real.sqrt_one]
  rw [h]
  exact isUnit_one

/-! ## Theorems for the claims -/

/-- C1: for a dataset whose per-histogram correlation matrices are invertible,
`chi2_metric` returns the matrix with entry `(k,l)` equal to `1/b` times the
sum over bins `i` of
`(N[k]*D[l,i] - N[l]*D[k,i])^2 / ((N[k]*E[l,i])^2 + (N[l]*E[k,i])^2)`,
where `N = norms()`, `D = data(decorrelate=True)` and `E = err()` (the
original, not decorrelated, errors). -/
theorem chi2_metric_formula {n b : ℕ} (dwe : DataWithErrors n b)
    (hinv : ∀ k, IsUnit ((dwe.corr k).det)) (k l : Fin n) :
    chi2_metric dwe k l =
      (1 / (b : ℝ)) *
        ∑ i, ((dwe.norms k * dwe.dataDecorr l i - dwe.norms l * dwe.dataDecorr k i) ^ 2 /
          ((dwe.norms k * dwe.err false l i) ^ 2 + (dwe.norms l * dwe.err false k i) ^ 2)) := by
  have h : chi2_metric dwe k l =
      (∑ i, ((dwe.norms k * dwe.dataDecorr l i - dwe.norms l * dwe.dataDecorr k i) ^ 2 /
        ((dwe.norms k * dwe.err false l i) ^ 2 + (dwe.norms l * dwe.err false k i) ^ 2))) /
        (b : ℝ) := rfl
  rw [h, one_div, inv_mul_eq_div]

/-- Witness for C1 at the concrete dataset `dwe0`. -/
theorem chi2_metric_formula_witness :
    (∀ k : Fin 1, IsUnit ((dwe0.corr k).det)) ∧
    chi2_metric dwe0 0 0 =
      (1 / ((1 : ℕ) : ℝ)) *
        ∑ i, ((dwe0.norms 0 * dwe0.dataDecorr 0 i - dwe0.norms 0 * dwe0.dataDecorr 0 i) ^ 2 /
          ((dwe0.norms 0 * dwe0.err false 0 i) ^ 2 + (dwe0.norms 0 * dwe0.err false 0 i) ^ 2)) :=
  ⟨dwe0_corr_isUnit, chi2_metric_formula dwe0 dwe0_corr_isUnit 0 0⟩

/-- A concrete dataset with one zero-norm histogram of one bin (data value 0)
and accumulated covariance 1, so its correlation matrix is the invertible
1 x 1 identity while `norms()` is zero. -/
def dweZ : DataWithErrors 1 1 :=
  ⟨fun _ _ => 0, fun _ _ _ => 1⟩

/-- C2 counterexample: the claim's diagonal-zero conclusion fails on the code.
On `dweZ` the claim's hypothesis holds (the correlation matrix is invertible),
yet every diagonal summand of `chi2_metric` at `(0,0)` is the quotient of a
zero numerator by a zero denominator (`norms` vanishes, so the denominator
`(N[k]*E[k,i])^2 + (N[k]*E[k,i])^2` is zero): numpy evaluates each such
summand as `0/0 = NaN` and the diagonal entry is `NaN`, not zero.  (Lean's
total division renders the same entry `0` in the embedding; the vanishing
denominator is the faithful statement of the divergence.) -/
theorem chi2_metric_diag_counterexample :
    (∀ k : Fin 1, IsUnit ((dweZ.corr k).det)) ∧
    ∀ i : Fin 1,
      (dweZ.norms 0 * dweZ.dataDecorr 0 i - dweZ.norms 0 * dweZ.dataDecorr 0 i) ^ 2 = 0 ∧
      (dweZ.norms 0 * dweZ.err false 0 i) ^ 2 + (dweZ.norms 0 * dweZ.err false 0 i) ^ 2 = 0 := by
  constructor
  · intro k
    have h : (dweZ.corr k).det = 1 := by
      rw [Matrix.det_fin_one]
      simp [dweZ, DataWithErrors.corr, cov2corr3, cov2err3, Real.sqrt_one]
    rw [h]
    exact isUnit_one
  · intro i
    have hnorm : dweZ.norms 0 = 0 := by
      simp [dweZ, DataWithErrors.norms]
    exact ⟨by rw [sub_self]; exact zero_pow two_ne_zero,
           by rw [hnorm]; norm_num⟩

/-- C2 (amended): on a dataset with invertible correlation matrices the
returned matrix is symmetric, and a diagonal entry `(k,k)` is zero provided
histogram `k`'s diagonal denominators do not vanish, i.e.
`norms()[k] * err()[k,i] ≠ 0` for every bin `i`; where some
`norms()[k] * err()[k,i]` is zero (e.g. a zero-norm histogram) the diagonal
summand is the undefined `0/0`, which numpy propagates as `NaN`. -/
theorem chi2_metric_symm_diag_guarded {n b : ℕ} (dwe : DataWithErrors n b)
    (hinv : ∀ k, IsUnit ((dwe.corr k).det)) :
    (∀ k l, chi2_metric dwe k l = chi2_metric dwe l k) ∧
    (∀ k, (∀ i, dwe.norms k * dwe.err false k i ≠ 0) → chi2_metric dwe k k = 0) := by
  constructor
  · intro k l
    simp only [chi2_metric]
    congr 1
    refine Finset.sum_congr rfl fun i _ => ?_
    ring
  · intro k hk
    simp only [chi2_metric]
    simp [sub_self]

/-- Witness for the amended C2 at the concrete dataset `dwe0`, whose diagonal
denominators are nonvanishing (`norms = 2`, `err = 1`), so the diagonal entry
is in fact zero there. -/
theorem chi2_metric_symm_diag_guarded_witness :
    (∀ k : Fin 1, IsUnit ((dwe0.corr k).det)) ∧
    ((∀ k l, chi2_metric dwe0 k l = chi2_metric dwe0 l k) ∧
     (∀ k, (∀ i, dwe0.norms k * dwe0.err false k i ≠ 0) → chi2_metric dwe0 k k = 0)) ∧
    chi2_metric dwe0 0 0 = 0 :=
  ⟨dwe0_corr_isUnit, chi2_metric_symm_diag_guarded dwe0 dwe0_corr_isUnit,
   (chi2_metric_symm_diag_guarded dwe0 dwe0_corr_isUnit).2 0 (fun i => by
     norm_num [dwe0, DataWithErrors.norms, DataWithErrors.err, cov2err3,
       Real.sqrt_one])⟩

/-- C4 counterexample: `cov(relative=True)` does not return a relative
covariance; on the concrete dataset `dwe0` it produces no value at all (the
absolute-to-relative converter raises `NotImplementedError`). -/
theorem cov_relative_counterexample :
    ¬ ∃ v, DataWithErrors.cov dwe0 true = some v := by
  rintro ⟨v, hv⟩
  simp [DataWithErrors.cov, abs2rel_cov] at hv

/-- C4 (amended): `cov(relative=False)` returns the accumulated absolute
covariance, while `cov(relative=True)` always fails with
`NotImplementedError` (the absolute-to-relative converter is unsupported) and
never returns a value. -/
theorem cov_relative_unimplemented {n b : ℕ} (dwe : DataWithErrors n b) :
    dwe.cov false = some dwe._cov ∧ dwe.cov true = none :=
  ⟨rfl, rfl⟩

/-- C6: for a covariance matrix with strictly positive diagonal,
`corr2cov (cov2corr C) (cov2err C)` reconstructs `C` exactly. -/
theorem cov_corr_err_roundtrip {b : ℕ} (C : Matrix (Fin b) (Fin b) ℝ)
    (hpos : ∀ i, 0 < C i i) :
    corr2cov (cov2corr C) (cov2err C) = C := by
  ext i j
  have hi : Real.sqrt (C i i) ≠ 0 := ne_of_gt (Real.sqrt_pos.mpr (hpos i))
  have hj : Real.sqrt (C j j) ≠ 0 := ne_of_gt (Real.sqrt_pos.mpr (hpos j))
  simp only [corr2cov, cov2corr, cov2err, Matrix.of_apply]
  field_simp
  ring

/-- A concrete 1 x 1 covariance matrix with positive diagonal. -/
def covW : Matrix (Fin 1) (Fin 1) ℝ :=
  Matrix.of fun _ _ => 4

/-- Witness for C6 at the concrete matrix `covW`. -/
theorem cov_corr_err_roundtrip_witness :
    (∀ i : Fin 1, 0 < covW i i) ∧ corr2cov (cov2corr covW) (cov2err covW) = covW :=
  ⟨fun i => by norm_num [covW, Matrix.of_apply],
   cov_corr_err_roundtrip covW (fun i => by norm_num [covW, Matrix.of_apply])⟩

/-- C7: two successive `add_err_uncorr` calls with non-negative error arrays
`e1`, `e2` accumulate the same covariance as a single call with the
elementwise `sqrt(e1^2 + e2^2)`. -/
theorem add_err_uncorr_additive {n b : ℕ} (dwe : DataWithErrors n b)
    (e1 e2 : Fin n → Fin b → ℝ)
    (h1 : ∀ k i, 0 ≤ e1 k i) (h2 : ∀ k i, 0 ≤ e2 k i) :
    ((dwe.add_err_uncorr e1).add_err_uncorr e2)._cov =
      (dwe.add_err_uncorr (fun k i => Real.sqrt (e1 k i ^ 2 + e2 k i ^ 2)))._cov := by
  funext k i j
  simp only [DataWithErrors.add_err_uncorr, DataWithErrors.add_err_corr,
    DataWithErrors.add_err_cov, corr2cov3]
  by_cases hij : i = j
  · subst hij
    have hs : Real.sqrt (e1 k i ^ 2 + e2 k i ^ 2) * Real.sqrt (e1 k i ^ 2 + e2 k i ^ 2)
        = e1 k i ^ 2 + e2 k i ^ 2 := Real.mul_self_sqrt (by positivity)
    simp only [eq_self_iff_true, if_true, one_mul]
    rw [hs]
    ring
  · simp [hij]

/-- Witness for C7 at `dwe0` with the constant error arrays 1 and 2. -/
theorem add_err_uncorr_additive_witness :
    ((∀ k i : Fin 1, (0 : ℝ) ≤ (fun (_ : Fin 1) (_ : Fin 1) => (1 : ℝ)) k i) ∧
     (∀ k i : Fin 1, (0 : ℝ) ≤ (fun (_ : Fin 1) (_ : Fin 1) => (2 : ℝ)) k i)) ∧
    ((dwe0.add_err_uncorr (fun _ _ => 1)).add_err_uncorr (fun _ _ => 2))._cov =
      (dwe0.add_err_uncorr
        (fun k i => Real.sqrt ((fun (_ : Fin 1) (_ : Fin 1) => (1 : ℝ)) k i ^ 2 +
          (fun (_ : Fin 1) (_ : Fin 1) => (2 : ℝ)) k i ^ 2)))._cov :=
  ⟨⟨fun _ _ => by norm_num, fun _ _ => by norm_num⟩,
   add_err_uncorr_additive dwe0 (fun _ _ => 1) (fun _ _ => 2)
     (fun _ _ => by norm_num) (fun _ _ => by norm_num)⟩

/-- C8: on a freshly constructed dataset (zero accumulated covariance),
`err()` is identically zero, and every entry of `corr()` is the quotient of a
zero numerator (`_cov k i j = 0`) by a zero denominator (the product of the
per-bin errors), i.e. the IEEE-undefined `0/0` that numpy propagates as `NaN`
without raising; both methods are total functions of the state. -/
theorem init_err_zero_corr_undefined {n b : ℕ} (d : Fin n → Fin b → ℝ) :
    (∀ k i, (DataWithErrors.init d).err false k i = 0) ∧
    (∀ k i j, (DataWithErrors.init d)._cov k i j = 0 ∧
      cov2err3 (DataWithErrors.init d)._cov k i *
        cov2err3 (DataWithErrors.init d)._cov k j = 0) := by
  refine ⟨fun k i => ?_, fun k i j => ⟨rfl, ?_⟩⟩
  · simp [DataWithErrors.err, DataWithErrors.init, cov2err3, Real.sqrt_zero]
  · simp [cov2err3, DataWithErrors.init, Real.sqrt_zero]

/-- The elements of `List.range m` at least `i + 1`, in order, are
`i + 1, i + 2, ..., m - 1`. -/
lemma range_filter_map (f : ℕ → ℝ) (i : ℕ) : ∀ m : ℕ,
    (((List.range m).filter fun j => i + 1 ≤ j).map f) =
      (List.range (m - i - 1)).map fun t => f (i + 1 + t) := by
  intro m
  induction m with
  | zero => simp
  | succ m ih =>
    rw [List.range_succ, List.filter_append, List.map_append, ih]
    by_cases h : i + 1 ≤ m
    · have h1 : m + 1 - i - 1 = (m - i - 1) + 1 := by omega
      rw [h1, List.range_succ, List.map_append]
      have h2 : (List.filter (fun j => decide (i + 1 ≤ j)) [m]).map f = [f m] := by
        simp [List.filter, h]
      rw [h2]
      have h3 : i + 1 + (m - i - 1) = m := by omega
      simp [h3]
    · have h1 : m + 1 - i - 1 = m - i - 1 := by omega
      have h2 : (List.filter (fun j => decide (i + 1 ≤ j)) [m]).map f = [] := by
        simp [List.filter, h]
      rw [h1, h2, List.append_nil]

/-- C9: `condense_distance_matrix` on an `nn x nn` matrix returns exactly
`nn * (nn - 1) / 2` values: the strictly-above-diagonal entries in row-major
order (for each row `i` in order, the entries `M i (i+1), ..., M i (nn-1)`). -/
theorem condense_distance_matrix_spec (nn : ℕ) (M : ℕ → ℕ → ℝ) :
    (condense_distance_matrix nn M).length = nn * (nn - 1) / 2 ∧
    condense_distance_matrix nn M =
      (List.range nn).flatMap fun i =>
        (List.range (nn - i - 1)).map fun t => M i (i + 1 + t) := by
  have hmain : condense_distance_matrix nn M =
      (List.range nn).flatMap fun i =>
        (List.range (nn - i - 1)).map fun t => M i (i + 1 + t) := by
    unfold condense_distance_matrix triu_indices
    rw [List.map_flatMap]
    refine List.flatMap_congr fun i _ => ?_
    rw [List.map_map]
    exact range_filter_map (fun j => M i j) i nn
  refine ⟨?_, hmain⟩
  rw [hmain, List.length_flatMap]
  have hfun : (List.length ∘ fun i => (List.range (nn - i - 1)).map fun t => M i (i + 1 + t))
      = fun i => nn - i - 1 := funext fun i => by simp
  rw [hfun]
  have hlen : (List.map (fun i => nn - i - 1) (List.range nn)).sum
      = ∑ i ∈ Finset.range nn, (nn - i - 1) := rfl
  rw [hlen]
  have hre : ∑ i ∈ Finset.range nn, (nn - i - 1) = ∑ i ∈ Finset.range nn, i := by
    have := Finset.sum_range_reflect (fun j => j) nn
    simpa [Nat.sub_sub, Nat.add_comm] using this
  rw [hre, Finset.sum_range_id]

/-- The histogram batch `[[1,2,3],[4,5,6]]` (2 histograms, 3 bins) as an
untyped array. -/
def d23 : NDArr :=
  ⟨[2, 3], fun ix => ((3 * ix.getD 0 0 + ix.getD 1 0 + 1 : ℕ) : ℝ)⟩

/-- The histogram batch `[[1,2],[3,4]]` (2 histograms, 2 bins) as an untyped
array; its row sums (`norms`) are `[3, 7]`. -/
def d22 : NDArr :=
  ⟨[2, 2], fun ix => ((2 * ix.getD 0 0 + ix.getD 1 0 + 1 : ℕ) : ℝ)⟩

/-- C3 (code bug): `data(normalize=True)` does not divide each histogram by
its own norm.  The in-place division `ret /= self.norms()` broadcasts the
`(n,)` norms vector against the last axis of the `(n, b)` data: on the
2 x 3 batch `[[1,2,3],[4,5,6]]` the shapes `(2, 3)` and `(2,)` do not
broadcast and the call raises a `ValueError` (modelled by `none`); on the
square 2 x 2 batch `[[1,2],[3,4]]` (norms `[3, 7]`) the call succeeds but
divides column-wise: entry `(1,0)` becomes `3 / 3 = 1` instead of the
per-histogram `3 / 7` the claim requires. -/
theorem data_normalize_bug :
    data_method_nd d23 true = none ∧
    (data_method_nd d22 true).map (fun r => r.val [1, 0]) = some 1 ∧
    (data_method_nd d22 true).map (fun r => r.val [1, 0]) ≠ some (3 / 7) := by
  have h23 : data_method_nd d23 true = none := rfl
  have h22 : data_method_nd d22 true =
      some ⟨d22.shape, fun ix =>
        d22.val ix / ((ndNorms d22).val (bIndex (ndNorms d22).shape ix))⟩ := rfl
  have hval : d22.val [1, 0] / ((ndNorms d22).val (bIndex (ndNorms d22).shape [1, 0])) = 1 := by
    have hb : bIndex (ndNorms d22).shape [1, 0] = [0] := rfl
    rw [hb]
    have hn : (ndNorms d22).val [0] = 3 := by
      show ∑ i ∈ Finset.range (d22.shape.getD 1 0), d22.val ([0].take 1 ++ [i]) = 3
      norm_num [d22, Finset.sum_range_succ]
    have hd : d22.val [1, 0] = 3 := by norm_num [d22]
    rw [hn, hd]
    norm_num
  refine ⟨h23, ?_, ?_⟩
  · rw [h22, Option.map_some']
    exact congrArg some hval
  · rw [h22, Option.map_some']
    intro hcon
    have h : d22.val [1, 0] / ((ndNorms d22).val (bIndex (ndNorms d22).shape [1, 0])) = 3 / 7 :=
      Option.some.inj hcon
    rw [hval] at h
    norm_num at h

/-- The zero 2 x 3 x 3 accumulated covariance tensor as an untyped array. -/
def c5cov : NDArr :=
  ⟨[2, 3, 3], fun _ => 0⟩

/-- A 3 x 3 all-ones covariance argument (rank 2 where rank 3 is expected). -/
def c5arg : NDArr :=
  ⟨[3, 3], fun _ => 1⟩

/-- C5 counterexample: passing a rank-2 `(b, b)` covariance where the
`(n, b, b)` contract expects rank 3 does not fail with a `ShapeError` and does
not leave the stored covariance unchanged: `self._cov += cov` broadcasts the
argument over all histograms, the call succeeds, and the stored entry
`(0,0,0)` changes from `0` to `1`. -/
theorem add_err_cov_no_shape_check :
    add_err_cov_nd c5cov c5arg ≠ none ∧
    (add_err_cov_nd c5cov c5arg).map (fun r => r.val [0, 0, 0]) = some 1 ∧
    c5cov.val [0, 0, 0] = 0 := by
  have h : add_err_cov_nd c5cov c5arg =
      some ⟨c5cov.shape, fun ix => c5cov.val ix + c5arg.val (bIndex c5arg.shape ix)⟩ := rfl
  refine ⟨by rw [h]; exact fun hc => Option.noConfusion hc, ?_, rfl⟩
  rw [h, Option.map_some']
  have hv : c5cov.val [0, 0, 0] + c5arg.val (bIndex c5arg.shape [0, 0, 0]) = 1 := by
    norm_num [c5cov, c5arg]
  exact congrArg some hv

/-- C5 (amended): the error-injection calls perform no shape validation of
their own.  An argument whose shape broadcasts into the stored `(n, b, b)`
covariance — such as a rank-2 `(b, b)` matrix — is silently accepted by
`self._cov += cov` and accumulated into every histogram's covariance; only a
non-broadcastable argument fails, with numpy's `ValueError` raised by `+=`
itself before any element is written (so the stored tensor is unchanged on
failure), and no `ShapeError` exists in the code. -/
theorem add_err_cov_rank2_broadcast (n b : ℕ) (A B : NDArr)
    (hA : A.shape = [n, b, b]) (hB : B.shape = [b, b]) :
    ∃ r, add_err_cov_nd A B = some r ∧ r.shape = [n, b, b] ∧
      ∀ k i j, i < b → j < b →
        r.val [k, i, j] = A.val [k, i, j] + B.val [i, j] := by
  have hbc : bcastShape A.shape B.shape = some A.shape := by
    rw [hA, hB]
    simp [bcastShape, bcastRev, bcastDim]
  refine ⟨⟨A.shape, fun ix => A.val ix + B.val (bIndex B.shape ix)⟩, ?_, hA, ?_⟩
  · simp [add_err_cov_nd, ndAddInPlace, ndOpInPlace, hbc]
  · intro k i j hi hj
    have hix : bIndex B.shape [k, i, j] = [i, j] := by
      rw [hB]
      show (([b, b].zip ([k, i, j].drop ([k, i, j].length - [b, b].length))).map fun p =>
        if p.1 = 1 then 0 else p.2) = [i, j]
      by_cases hb1 : b = 1
      · subst hb1
        have hi0 : i = 0 := by omega
        have hj0 : j = 0 := by omega
        subst hi0; subst hj0
        rfl
      · simp [List.zip, hb1]
    show A.val [k, i, j] + B.val (bIndex B.shape [k, i, j]) = A.val [k, i, j] + B.val [i, j]
    rw [hix]

/-- Witness for the amended C5 at the concrete arrays `c5cov`, `c5arg`. -/
theorem add_err_cov_rank2_broadcast_witness :
    (c5cov.shape = [2, 3, 3] ∧ c5arg.shape = [3, 3]) ∧
    ∃ r, add_err_cov_nd c5cov c5arg = some r ∧ r.shape = [2, 3, 3] ∧
      ∀ k i j, i < 3 → j < 3 →
        r.val [k, i, j] = c5cov.val [k, i, j] + c5arg.val [i, j] :=
  ⟨⟨rfl, rfl⟩, add_err_cov_rank2_broadcast 2 3 c5cov c5arg rfl rfl⟩

/-- A concrete heap state for a 1 x 1 dataset: the stored `_cov` array lives
at address 0 and holds the zero tensor, the stored `_data` array lives at
address 0 of the data heap, and the next fresh address is 1. -/
def st10 : DWEHeap 1 1 :=
  ⟨fun _ _ _ _ => 0, fun _ _ _ => 0, 0, 0, 1⟩

/-- C10 counterexample: the array returned by `cov(relative=False)` is the
stored `_cov` object itself (`return self._cov`), so a caller writing through
it changes the dataset's stored covariance: on `st10` the stored entry is 0
before the write and 1 after. -/
theorem cov_returns_alias :
    (st10.writeCov st10.covMethodAddr (fun _ _ _ => 1)).storedCov 0 0 0 = 1 ∧
    st10.storedCov 0 0 0 = 0 := by
  constructor
  · simp [st10, DWEHeap.writeCov, DWEHeap.covMethodAddr, DWEHeap.storedCov]
  · rfl

/-- C10 (amended): `data()` returns a freshly allocated copy — mutating the
returned array never changes the stored `_data` — but `cov(relative=False)`
returns the stored `_cov` array itself, so mutating the returned array
replaces the dataset's stored covariance. -/
theorem accessor_aliasing {n b : ℕ} (st : DWEHeap n b)
    (v : Fin n → Fin b → Fin b → ℝ) (w : Fin n → Fin b → ℝ)
    (h : st.dataAddr ≠ st.freshAddr) :
    (st.writeCov st.covMethodAddr v).storedCov = v ∧
    ((st.dataMethodAddr).2.writeData (st.dataMethodAddr).1 w).storedData = st.storedData := by
  constructor
  · simp [DWEHeap.writeCov, DWEHeap.covMethodAddr, DWEHeap.storedCov]
  · simp [DWEHeap.dataMethodAddr, DWEHeap.writeData, DWEHeap.storedData,
      Function.update_noteq h]

/-- Witness for the amended C10 at the concrete state `st10`. -/
theorem accessor_aliasing_witness :
    st10.dataAddr ≠ st10.freshAddr ∧
    ((st10.writeCov st10.covMethodAddr (fun _ _ _ => 2)).storedCov = (fun _ _ _ => 2) ∧
     ((st10.dataMethodAddr).2.writeData (st10.dataMethodAddr).1
        (fun _ _ => 5)).storedData = st10.storedData) :=
  ⟨by decide, accessor_aliasing st10 (fun _ _ _ => 2) (fun _ _ => 5) (by decide)⟩

end BClustering
